import Mathlib

/-!
Verification development for the mbiotaDB core pipeline.

The definitions below are a shallow embedding of the repository's source:

* `src/creator/taxon_merger.py` — `aggregate_at_taxon_level` (rank-aware
  aggregation of long-format count tables);
* `src/creator/count_parser.py` — `get_counts`, `get_lineage`,
  `get_lineage_from_tree` (count-cell extraction and lineage resolution);
* `src/debug_tools/profile_get_lineage_from_tree.py` — `all_parents`,
  `get_path` (parent-index build and ancestor walks).

Modelling conventions:

* pandas DataFrames are lists of records.  A long-format table row carries
  the values of its grouping-key columns (opaque strings, in column order),
  the taxonomic rank columns present in the table (in rank order, `none`
  standing for pandas `NA`), and the integer `count`.
* `groupby` uses pandas' pre-1.1 semantics (always `dropna=True`): a row
  whose value in any grouping column is `NA` is dropped from the grouped
  result.  Group traversal order is modelled as first-occurrence order of
  the group keys; pandas sorts group keys instead, so all theorems about
  grouped output are stated up to permutation or membership, never about
  row order.
* fallible Python code (raised exceptions) is modelled with `Except`; the
  error strings summarise the exception type and are not bit-exact copies
  of the Python messages.
* `print` calls in the source have no effect on the returned value and are
  not modelled.
-/

namespace MbiotaDB

/-- Recognised taxonomic rank column names, in rank order
(taxon_merger.py lines 104-105). -/
def recognized_taxon_levels : List String :=
  ["kingdom", "phylum", "class", "order", "family", "genus", "species"]

/-- Default dummy labels per rank (taxon_merger.py line 106). -/
def dummy_levels : List String :=
  ["k__", "p__", "c__", "o__", "f__", "g__", "s__"]

/-- Default dummy dictionary: rank name to default dummy label
(taxon_merger.py line 107). -/
def default_dummy_dict : List (String × String) :=
  recognized_taxon_levels.zip dummy_levels

/-- One row of a long-format count table.  `keys` are the values of the
grouping-key columns (opaque to the aggregation, passed through verbatim),
`ranks` the values of the taxonomic rank columns in rank order (`none`
models a pandas `NA` cell), `count` the count.  A conforming table has
`ranks.length = 7` (all seven rank columns present). -/
structure Row where
  keys : List String
  ranks : List (Option String)
  count : Nat
deriving DecidableEq

/-- One row of the aggregated output table: grouping-key values, the
retained taxonomic columns (`[target]` under simple aggregation, the
kingdom-to-target prefix otherwise; `none` models `NA`), and the summed
count. -/
structure OutRow where
  keys : List String
  taxa : List (Option String)
  count : Nat
deriving DecidableEq

/-- Removes the decorative brackets from a taxon label: models the
`replace(r'[\[\]]', '', regex=True)` of taxon_merger.py line 169. -/
def strip_brackets (s : String) : String :=
  String.mk (s.data.filter (fun c => !(c == '[' || c == ']')))

/-- Bracket stripping applied to every taxonomic column of one row. -/
def strip_row (r : Row) : Row :=
  { r with ranks := r.ranks.map (Option.map strip_brackets) }

/-- The check_brackets preprocessing step of taxon_merger.py lines 168-169. -/
def preprocess (check_brackets : Bool) (df : List Row) : List Row :=
  if check_brackets then df.map strip_row else df

/-- Models Python `str.lower()` on the ASCII identifiers this pipeline
handles (rank names, dummy-value keys): each basic latin letter is
lower-cased, every other character is left alone. -/
def str_lower (s : String) : String :=
  String.mk (s.data.map Char.toLower)

/-- Position of a string in a list (models `list.index`); only used on
members, where it returns the index of the first occurrence. -/
def list_index (a : String) : List String → Nat
  | [] => 0
  | b :: rest => if b = a then 0 else 1 + list_index a rest

/-- The index of the (lower-cased) target rank among the recognised ranks
(taxon_merger.py line 121). -/
def rank_index (taxon_level : String) : Nat :=
  list_index (str_lower taxon_level) recognized_taxon_levels

/-- Replace the value stored under key `k` in an association list.  Models
a Python dict assignment for a key that is already present (insertion
order, hence list order, is preserved). -/
def assoc_update (l : List (String × String)) (k v : String) : List (String × String) :=
  l.map (fun p => if p.1 = k then (k, v) else p)

/-- Processing of the user-supplied dummy_values dictionary
(taxon_merger.py lines 109-115): each key is lower-cased, then rejected
with a ValueError if it is not a recognised rank, otherwise its value
replaces the default dummy for that rank. -/
def process_dummy_values : List (String × String) → List (String × String) →
    Except String (List (String × String))
  | [], dict => .ok dict
  | (k, v) :: rest, dict =>
    if (dict.lookup (str_lower k)).isSome then
      process_dummy_values rest (assoc_update dict (str_lower k) v)
    else
      .error "ValueError: a dummy_values key is not a recognized taxon level"

/-- Sequences a list of optional values: `some` of the list of values when
every entry is present, `none` as soon as one entry is `NA`.  Used to model
pandas dropping any row whose group key contains `NA`. -/
def seq_option : List (Option String) → Option (List String)
  | [] => some []
  | none :: _ => none
  | some a :: rest => (seq_option rest).map (fun l => a :: l)

/-- The taxonomic part of the group key of one row: just the target-rank
column under simple aggregation, the kingdom-to-target prefix otherwise
(taxon_merger.py lines 163-166). -/
def grouped_taxa (simple : Bool) (idx : Nat) (r : Row) : List (Option String) :=
  if simple then [r.ranks.getD idx none] else r.ranks.take (idx + 1)

/-- Group key of a row: grouping-key values plus taxonomic key values.
`none` when the row is dropped by `groupby` because one of its grouped
taxonomic values is `NA`. -/
abbrev GroupKey := List String × List String

/-- Group key of one row, or `none` if `groupby` drops the row. -/
def row_key (simple : Bool) (idx : Nat) (r : Row) : Option GroupKey :=
  (seq_option (grouped_taxa simple idx r)).map (fun ts => (r.keys, ts))

/-- First-occurrence deduplication of a list, keeping the order in which
keys first appear. -/
def dedup_first_aux [DecidableEq α] (seen : List α) : List α → List α
  | [] => []
  | a :: rest =>
    if a ∈ seen then dedup_first_aux seen rest
    else a :: dedup_first_aux (a :: seen) rest

/-- First-occurrence deduplication of a list, keeping the order in which
keys first appear. -/
def dedup_first [DecidableEq α] (l : List α) : List α :=
  dedup_first_aux [] l

/-- Total count of the rows of `df` falling in the group `k`. -/
def group_total (df : List Row) (simple : Bool) (idx : Nat) (k : GroupKey) : Nat :=
  ((df.filter (fun r => row_key simple idx r == some k)).map Row.count).sum

/-- The grouped-and-summed table: one entry per distinct group key of the
kept rows, carrying the summed count (taxon_merger.py lines 174-176). -/
def summed_rows (df : List Row) (simple : Bool) (idx : Nat) : List (GroupKey × Nat) :=
  (dedup_first (df.filterMap (row_key simple idx))).map
    (fun k => (k, group_total df simple idx k))

/-- Value of the target-rank column of an output row (its last taxonomic
column); `none` models an `NA` cell. -/
def target_value (r : OutRow) : Option String :=
  (r.taxa.getLast?).getD none

/-- The grouped-and-summed table rendered as output rows
(`summed_df.reset_index()`, taxon_merger.py line 176). -/
def base_rows (summed : List (GroupKey × Nat)) : List OutRow :=
  summed.map (fun kc => { keys := kc.1.1, taxa := kc.1.2.map some, count := kc.2 })

/-- The replacement rows built for missing/dummy target groups under
hierarchical aggregation (taxon_merger.py line 189): the dummy groups are
re-grouped by the grouping-key columns alone and summed; the appended rows
carry `NA` in every taxonomic column. -/
def collapse_dummy_rows (groups : List (GroupKey × Nat)) (n : Nat) : List OutRow :=
  (dedup_first (groups.map (fun kc => kc.1.1))).map
    (fun g =>
      { keys := g, taxa := List.replicate n none,
        count := ((groups.filter (fun kc => kc.1.1 == g)).map (fun kc => kc.2)).sum })

/-- The hierarchical (simple_aggregation=False) post-processing of
taxon_merger.py lines 182-194: the groups whose target-rank value is the
dummy are cut out of the grouped table, re-grouped by the grouping-key
columns alone, summed, and appended as rows whose rank columns are all
`NA`; if no group carries the dummy (the `xs` KeyError branch) the grouped
table is left alone. -/
def apply_complex_dummy_collapse (summed : List (GroupKey × Nat)) (idx : Nat)
    (dummy : String) : List OutRow :=
  let base := base_rows summed
  let dummy_groups := summed.filter (fun kc => kc.1.2.getLast? == some dummy)
  if dummy_groups.isEmpty then base
  else
    (base.filter (fun r => !(target_value r == some dummy))) ++
      collapse_dummy_rows dummy_groups (idx + 1)

/-- The dummy label in force for the target rank after processing the
user-supplied overrides; `none` when the overrides themselves are
rejected. -/
def effective_dummy (dummy_values : List (String × String)) (taxon_level : String) :
    Option String :=
  match process_dummy_values dummy_values default_dummy_dict with
  | .error _ => none
  | .ok dict => dict.lookup (str_lower taxon_level)

/-- Shallow embedding of `aggregate_at_taxon_level` (taxon_merger.py
lines 17-220) on conforming tables: the modelled table carries exactly the
grouping-key columns named by `grouping_cols` (their values are
`Row.keys`), the taxonomic rank columns (`Row.ranks`) and `count`, so the
column-presence checks of lines 126-157 cannot fail and are not modelled;
the `keep_all_cols=True` variant (line 217) is outside the modelled table
shape and is omitted, as is the dead `grouping_cols` default of lines
158-162 (modelled separately by `default_grouping_cols`).  The zero_counts
branch models lines 202-212: its densification loop only prints and then
breaks, so it has no effect on the result, but the column selection
`new_df[required_taxon_levels]` on line 203 raises a KeyError under simple
aggregation whenever a rank above the target is required, since the simple
grouped table lacks the coarser rank columns. -/
def aggregate_at_taxon_level (df : List Row) (taxon_level : String)
    (dummy_values : List (String × String)) (missing_method : String)
    (check_brackets : Bool) (simple_aggregation : Bool) :
    Except String (List OutRow) :=
  let tl := str_lower taxon_level
  match process_dummy_values dummy_values default_dummy_dict with
  | .error e => .error e
  | .ok dummy_dict =>
    if tl ∈ recognized_taxon_levels then
      let idx := list_index tl recognized_taxon_levels
      let dummy := (dummy_dict.lookup tl).getD ""
      let df2 := preprocess check_brackets df
      let summed := summed_rows df2 simple_aggregation idx
      let new_df :=
        if simple_aggregation then base_rows summed
        else apply_complex_dummy_collapse summed idx dummy
      if missing_method = "sum" then .ok new_df
      else if missing_method = "remove" then
        .ok (new_df.filter (fun r =>
          !(target_value r == some dummy || target_value r == none)))
      else if missing_method = "zero_counts" then
        if simple_aggregation && decide (0 < idx) then
          .error "KeyError: the coarser required taxon level columns are absent"
        else
          .ok (summed.map (fun kc =>
            { keys := kc.1.1, taxa := kc.1.2.map some,
              count := if kc.1.2.getLast? == some dummy then 0 else kc.2 }))
      else .error "ValueError: the given missing_method is not valid"
    else .error "ValueError: the given taxon_level is not a recognized taxon level"

/-- Total of the count column of an input table. -/
def table_total (df : List Row) : Nat :=
  (df.map Row.count).sum

/-- Total of the count column of an aggregated table. -/
def out_total (l : List OutRow) : Nat :=
  (l.map OutRow.count).sum

/-- Builds a fully labelled table row from plain strings. -/
def mk_row (ks : List String) (rs : List String) (c : Nat) : Row :=
  { keys := ks, ranks := rs.map some, count := c }

/-- Builds a fully labelled output row from plain strings. -/
def mk_out (ks : List String) (ts : List String) (c : Nat) : OutRow :=
  { keys := ks, taxa := ts.map some, count := c }

/-- Feeds an aggregated table back into aggregation: the output table's
rank columns (kingdom through the target rank) become the input rank
columns. -/
def row_of_out (r : OutRow) : Row :=
  { keys := r.keys, ranks := r.taxa, count := r.count }

/-- The reference 12-row fixture of test_taxon_merger.py (setUp, `data2`,
lines 56-69), restricted to the seven grouping-key columns actually used
for grouping plus the rank columns and the count. -/
def data2 : List Row := [
  mk_row ["1","1","1","1","1","1","1"] ["k__A","p__B","c__E","o__H","f__K","g__O","s__q"] 1,
  mk_row ["1","1","1","1","1","1","1"] ["k__A","p__C","c__F","o__I","f__L","g__","s__"] 2,
  mk_row ["1","1","1","1","1","1","1"] ["k__A","p__D","c__G","o__J","f__M","g__P","s__"] 1,
  mk_row ["1","1","1","1","1","1","1"] ["k__A","p__C","c__F","o__I","f__L","g__","s__"] 2,
  mk_row ["2","2","2","2","2","2","2"] ["k__A","p__C","c__F","o__I","f__N","g__","s__"] 1,
  mk_row ["2","2","2","2","2","2","2"] ["k__A","p__D","c__G","o__J","f__M","g__P","s__"] 2,
  mk_row ["2","2","2","2","2","2","2"] ["k__A","p__C","c__F","o__I","f__N","g__","s__"] 1,
  mk_row ["2","2","2","2","2","2","2"] ["k__A","p__C","c__F","o__I","f__N","g__","s__"] 2,
  mk_row ["3","3","3","3","3","3","2"] ["k__A","p__C","c__F","o__I","f__N","g__","s__"] 1,
  mk_row ["3","3","3","3","3","3","2"] ["k__A","p__D","c__G","o__J","f__M","g__P","s__"] 2,
  mk_row ["3","3","3","3","3","3","2"] ["k__A","p__C","c__F","o__I","f__L","g__","s__"] 1,
  mk_row ["3","3","3","3","3","3","2"] ["k__A","p__D","c__G","o__J","f__M","g__P","s__r"] 2]

/-- The rows the modelled aggregation produces for the C4 scenario, in the
model's first-occurrence group order. -/
def c4_actual : List OutRow := [
  mk_out ["1","1","1","1","1","1","1"] ["g__O"] 1,
  mk_out ["1","1","1","1","1","1","1"] ["g__"] 4,
  mk_out ["1","1","1","1","1","1","1"] ["g__P"] 1,
  mk_out ["2","2","2","2","2","2","2"] ["g__"] 4,
  mk_out ["2","2","2","2","2","2","2"] ["g__P"] 2,
  mk_out ["3","3","3","3","3","3","2"] ["g__"] 2,
  mk_out ["3","3","3","3","3","3","2"] ["g__P"] 4]

/-- The exact output demanded by claim C4 and by the test's `simple_sum`
expectation (test_taxon_merger.py lines 70-79), in the test's order. -/
def c4_expected : List OutRow := [
  mk_out ["1","1","1","1","1","1","1"] ["g__"] 4,
  mk_out ["1","1","1","1","1","1","1"] ["g__O"] 1,
  mk_out ["1","1","1","1","1","1","1"] ["g__P"] 1,
  mk_out ["2","2","2","2","2","2","2"] ["g__"] 4,
  mk_out ["2","2","2","2","2","2","2"] ["g__P"] 2,
  mk_out ["3","3","3","3","3","3","2"] ["g__"] 2,
  mk_out ["3","3","3","3","3","3","2"] ["g__P"] 4]

/-- Counterexample table for C1: a single row whose genus and species
cells are `NA` (the all-`None` tail a lineage resolved from neither
metadata nor tree produces at the deeper ranks), with count 5. -/
def c1_df : List Row :=
  [{ keys := ["1"],
     ranks := [some "k__A", some "p__B", some "c__E", some "o__H", some "f__K",
               none, none],
     count := 5 }]

/-- Counterexample table for C2: two rows with the same grouping key, two
distinct coarser lineages, and a dummy genus in both. -/
def c2_df : List Row := [
  mk_row ["1"] ["k__A","p__B","c__E","o__H","f__K","g__","s__"] 1,
  mk_row ["1"] ["k__A","p__C","c__F","o__I","f__L","g__","s__"] 2]

/-- What the code produces on `c2_df` at genus, hierarchical, policy sum:
a single collapsed row with `NA` in every rank column. -/
def c2_code_output : List OutRow :=
  [{ keys := ["1"], taxa := List.replicate 6 none, count := 3 }]

/-- What claim C2 predicts on `c2_df`: each coarser-lineage prefix with a
dummy genus remains its own output row retaining its coarser-rank labels.
This definition follows the claim's words, for comparison with the
behaviour of the code. -/
def c2_claim_predicted : List OutRow := [
  mk_out ["1"] ["k__A","p__B","c__E","o__H","f__K","g__"] 1,
  mk_out ["1"] ["k__A","p__C","c__F","o__I","f__L","g__"] 2]

/-- Input table for C3: two grouping-key values, three distinct lineage
prefixes up to genus (one of them dummy at genus). -/
def c3_df : List Row := [
  mk_row ["1"] ["k__A","p__B","c__E","o__H","f__K","g__X","s__x"] 1,
  mk_row ["2"] ["k__A","p__C","c__F","o__I","f__L","g__Y","s__y"] 2,
  mk_row ["1"] ["k__A","p__B","c__E","o__H","f__K","g__","s__"] 7]

/-- What the code produces on `c3_df` under policy zero_counts at genus,
hierarchical: the grouped sums with the dummy-genus row's count
overwritten by 0 — no densification. -/
def c3_out : List OutRow := [
  mk_out ["1"] ["k__A","p__B","c__E","o__H","f__K","g__X"] 1,
  mk_out ["2"] ["k__A","p__C","c__F","o__I","f__L","g__Y"] 2,
  mk_out ["1"] ["k__A","p__B","c__E","o__H","f__K","g__"] 0]

/-- Counterexample table for C5: one row whose genus is the dummy label. -/
def c5_df : List Row :=
  [mk_row ["1"] ["k__A","p__B","c__E","o__H","f__K","g__","s__"] 3]

/-- Hierarchical sum output on `c5_df`: one collapsed all-`NA` row. -/
def c5_out1 : List OutRow :=
  [{ keys := ["1"], taxa := List.replicate 6 none, count := 3 }]

/-- Witness table for the amended C5: two fully classified rows with no
dummy or missing genus. -/
def c5w_df : List Row := [
  mk_row ["1"] ["k__A","p__B","c__E","o__H","f__K","g__X","s__x"] 2,
  mk_row ["2"] ["k__A","p__C","c__F","o__I","f__L","g__Y","s__y"] 3]

/-- Hierarchical sum output on `c5w_df`. -/
def c5w_out : List OutRow := [
  mk_out ["1"] ["k__A","p__B","c__E","o__H","f__K","g__X"] 2,
  mk_out ["2"] ["k__A","p__C","c__F","o__I","f__L","g__Y"] 3]

/-- Position of a column label among a table's columns, or `none` when
absent (models `pandas.Index.get_loc`, which raises a KeyError when the
label is absent). -/
def find_index (a : String) : List String → Option Nat
  | [] => none
  | b :: rest => if b = a then some 0 else (find_index a rest).map (fun i => i + 1)

/-- Embeds taxon_merger.py lines 158-162, the default taken when
`grouping_cols` is empty: `upper_index = df.columns.get_loc('kingdom')`
followed by `grouping_cols = df.columns.names[:upper_index]`.
`df.columns.names` is the list of level names of the column Index — for
the ordinary single-level unnamed column index it is `[None]`, not the
list of column labels — so the slice is taken from `[none]` here exactly
as the code takes it from `FrozenList([None])`. -/
def default_grouping_cols (cols : List String) : Option (List (Option String)) :=
  (find_index "kingdom" cols).map (fun i => ([none] : List (Option String)).take i)

/-- Modelled from the spec: the intended default grouping columns, namely
every column of the table positioned to the left of 'kingdom' (the
behaviour the code's own comment on line 159 describes). -/
def intended_default_grouping_cols (cols : List String) : Option (List String) :=
  (find_index "kingdom" cols).map (fun i => cols.take i)

/-- Column layout of the reference fixture table
(test_taxon_merger.py line 37). -/
def fixture_columns : List String :=
  ["experiment_id", "subject_id", "sample_id", "sample_time_id", "sample_site_id",
   "preperation_id", "workflow_id", "lineage_id", "seq_var_id", "count", "id",
   "kingdom", "phylum", "class", "order", "family", "genus", "species"]

/-- The ORM Lineage record (model.py): one optional label per rank. -/
structure LineageRec where
  kingdom_ : Option String
  phylum_ : Option String
  class_ : Option String
  order_ : Option String
  family_ : Option String
  genus_ : Option String
  species_ : Option String
deriving DecidableEq

/-- The Lineage with no information at any of the seven ranks. -/
def all_none_lineage : LineageRec :=
  { kingdom_ := none, phylum_ := none, class_ := none, order_ := none,
    family_ := none, genus_ := none, species_ := none }

/-- One nonzero cell of a BIOM count table, as enumerated by
`table.nonzero()` (observation id, sample id, count). -/
structure BiomCell where
  obs_id : String
  sample_id : String
  count : Nat
deriving DecidableEq

/-- Models `re.match('[ATGCN]+', s)` (count_parser.py line 131): `re.match`
anchors at the start only, so the match succeeds exactly when the first
character of `s` is one of the five nucleotide letters. -/
def nucleotide_match (s : String) : Bool :=
  match s.data with
  | [] => false
  | c :: _ => c == 'A' || c == 'T' || c == 'G' || c == 'C' || c == 'N'

/-- The CountElement record of count_parser.py (count, lineage, optional
sequencing-variant tag holding the identifier the code stores). -/
structure CountElement where
  count : Nat
  lineage : LineageRec
  seq_var : Option String
deriving DecidableEq

/-- Embeds the cell loop of `get_counts` (count_parser.py lines 127-135):
for every nonzero (observation, sample) cell, the observation's lineage is
looked up in the precomputed lineage map, the SAMPLE identifier is matched
against the nucleotide alphabet (the source passes `samp_id`, not
`obs_id`, both to `re.match` and to the SequencingVariant constructor),
and a CountElement is emitted keyed by the sample id (the defaultdict
grouping by sample id is modelled as the association-pair list). -/
def get_counts_cells (cells : List BiomCell) (lineage_map : String → LineageRec) :
    List (String × CountElement) :=
  cells.map (fun c =>
    (c.sample_id,
      { count := c.count, lineage := lineage_map c.obs_id,
        seq_var := if nucleotide_match c.sample_id then some c.sample_id else none }))

mutual
/-- Rooted tree of Biopython clades.  Following the arena view suggested by
the design notes, a node is addressed by the list of child indices leading
to it from the root, so clade object identity in the Python dictionaries
becomes address equality here.  The children live in the mutually defined
forest type so that tree traversals are structural recursions. -/
inductive PTree where
  | node (name : Option String) (children : PForest)

/-- Ordered forest of sibling clades. -/
inductive PForest where
  | nil
  | cons (t : PTree) (ts : PForest)
end

/-- Address of a node: the child indices from the root. -/
abbrev Addr := List Nat

/-- Name of a clade. -/
def PTree.name : PTree → Option String
  | .node n _ => n

/-- Children of a clade, in order. -/
def PTree.children : PTree → PForest
  | .node _ cs => cs

/-- The clade at a position of a forest. -/
def PForest.get? : PForest → Nat → Option PTree
  | .nil, _ => none
  | .cons t _, 0 => some t
  | .cons _ ts, n + 1 => PForest.get? ts n

/-- The subtree rooted at an address, when the address is valid. -/
def subtree_at : PTree → Addr → Option PTree
  | t, [] => some t
  | t, i :: rest =>
    match t.children.get? i with
    | none => none
    | some c => subtree_at c rest

/-- Whether an address names a node of the tree. -/
def valid_addr (t : PTree) (a : Addr) : Bool :=
  (subtree_at t a).isSome

/-- The children of the clade at address `a`, paired with their own
addresses, starting at child index `i` (models `for child in clade`). -/
def enum_children (a : Addr) : Nat → PForest → List (Addr × PTree)
  | _, .nil => []
  | i, .cons c cs => (a ++ [i], c) :: enum_children a (i + 1) cs

/-- Level-order (breadth-first) traversal of a queue of addressed clades:
models `tree.find_clades(order='level')`. -/
def level_order : List (Addr × PTree) → List (Addr × PTree)
  | [] => []
  | (a, t) :: rest => (a, t) :: level_order (rest ++ enum_children a 0 t.children)
termination_by q => (q.map (fun p => sizeOf p.2)).sum
decreasing_by
  have he : ∀ (n : Nat) (b : Addr) (i : Nat) (cs : PForest), sizeOf cs ≤ n →
      ((enum_children b i cs).map (fun p => sizeOf p.2)).sum < 1 + sizeOf cs := by
    intro n
    induction n with
    | zero =>
      intro b i cs hle
      cases cs with
      | nil => simp [enum_children]
      | cons c cs2 =>
        exfalso
        simp only [PForest.cons.sizeOf_spec] at hle
        omega
    | succ m ih =>
      intro b i cs hle
      cases cs with
      | nil => simp [enum_children]
      | cons c cs2 =>
        simp only [enum_children, List.map_cons, List.sum_cons, PForest.cons.sizeOf_spec]
        simp only [PForest.cons.sizeOf_spec] at hle
        have h2 := ih b (i + 1) cs2 (by omega)
        omega
  have ht : 1 + sizeOf t.children ≤ sizeOf t := by
    cases t with
    | node n cs =>
      simp only [PTree.children, PTree.node.sizeOf_spec]
      omega
  have h1 := he (sizeOf t.children) a 0 t.children (Nat.le_refl _)
  simp only [List.map_append, List.sum_append, List.map_cons, List.sum_cons]
  omega

/-- Embeds `all_parents` (profile_get_lineage_from_tree.py lines 111-116):
one level-order pass over the tree, assigning to every visited clade's
child its parent; the resulting dictionary is the association list of
(child address, parent address) pairs in assignment order. -/
def all_parents (t : PTree) : List (Addr × Addr) :=
  (level_order [([], t)]).flatMap
    (fun p => (enum_children p.1 0 p.2.children).map (fun c => (c.1, p.1)))

/-- Embeds the while loop of `get_path` (profile_get_lineage_from_tree.py
lines 124-129): append the current clade, follow the parent dictionary,
and stop at the KeyError raised for the parentless root.  The loop is
modelled with fuel; `depth + 1` steps always suffice because every parent
address is one entry shorter. -/
def walk_parents (parents : List (Addr × Addr)) : Nat → Addr → List Addr
  | 0, _ => []
  | fuel + 1, a =>
    a ::
      match List.lookup a parents with
      | none => []
      | some p => walk_parents parents fuel p

/-- Embeds `get_path` (profile_get_lineage_from_tree.py lines 119-130) on
an addressed clade; the `asv_clades` name lookup of the source is the
leaf-address argument here. -/
def get_path (t : PTree) (a : Addr) : List Addr :=
  walk_parents (all_parents t) (a.length + 1) a

/-- The descending chain of prefixes of an address: the node itself, its
parent, and so on up to the root — the path `get_path` is expected to
produce. -/
def ancestor_addrs_fuel : Nat → Addr → List Addr
  | 0, a => [a]
  | n + 1, a => a :: ancestor_addrs_fuel n a.dropLast

/-- The expected leaf-to-root address path. -/
def ancestor_addrs (a : Addr) : List Addr :=
  ancestor_addrs_fuel a.length a

mutual
/-- Preorder search for the first clade whose name equals the given
observation id; models `tree.find_any(name=obs_id)`.  Biopython matches
the string as an anchored regular expression, which for the plain
alphanumeric identifiers modelled here is string equality. -/
def find_named (a : Addr) (nm : String) : PTree → Option Addr
  | .node n cs => if n == some nm then some a else find_named_forest a 0 nm cs

/-- Preorder search through a forest of siblings. -/
def find_named_forest (a : Addr) (i : Nat) (nm : String) : PForest → Option Addr
  | .nil => none
  | .cons c cs =>
    match find_named (a ++ [i]) nm c with
    | some r => some r
    | none => find_named_forest a (i + 1) nm cs
end

/-- Embeds `tree.find_any(name=obs_id)` (count_parser.py line 187). -/
def find_any (t : PTree) (nm : String) : Option Addr :=
  find_named [] nm t

/-- Whether a clade name contains the rank separator, i.e. matches the
`.*__.*` pattern of `get_tree_taxa` (count_parser.py lines 172-175). -/
def has_double_underscore : List Char → Bool
  | '_' :: '_' :: _ => true
  | _ :: rest => has_double_underscore rest
  | [] => false

mutual
/-- Preorder collection of the addressed names of all clades whose name
contains `__`; models `tree.find_elements(name='.*__.*')`
(count_parser.py lines 172-175). -/
def collect_taxa (a : Addr) : PTree → List (Addr × String)
  | .node n cs =>
    match n with
    | some s =>
      if has_double_underscore s.data then (a, s) :: collect_taxa_forest a 0 cs
      else collect_taxa_forest a 0 cs
    | none => collect_taxa_forest a 0 cs

/-- Preorder collection through a forest of siblings. -/
def collect_taxa_forest (a : Addr) (i : Nat) : PForest → List (Addr × String)
  | .nil => []
  | .cons c cs => collect_taxa (a ++ [i]) c ++ collect_taxa_forest a (i + 1) cs
end

/-- Embeds `get_tree_taxa` (count_parser.py lines 172-175). -/
def get_tree_taxa (t : PTree) : List (Addr × String) :=
  collect_taxa [] t

/-- Word characters of the label pattern (`\w`). -/
def is_word_char (c : Char) : Bool :=
  c.isAlphanum || c == '_'

/-- Characters allowed in the label name tail (`[\w\d_-]`). -/
def is_name_char (c : Char) : Bool :=
  c.isAlphanum || c == '_' || c == '-'

/-- Characters of the branch-length group (`[\d.]`). -/
def is_digit_dot (c : Char) : Bool :=
  c.isDigit || c == '.'

/-- Tries to match the name group `\w__[\w\d_-]*` at the current
position. -/
def match_name_at : List Char → Option (List Char × List Char)
  | c1 :: '_' :: '_' :: rest =>
    if is_word_char c1 then
      some (c1 :: '_' :: '_' :: rest.takeWhile is_name_char, rest.dropWhile is_name_char)
    else none
  | _ => none

/-- Tries to match the full label pattern `([\d.]+:)?(\w__[\w\d_-]*)` at
the current position: a nonempty digits-and-dots run followed by a colon
is consumed as branch length when the name group matches after it;
otherwise the name group is tried at the position itself. -/
def match_label_at (cs : List Char) : Option (List Char × List Char) :=
  let ds := cs.takeWhile is_digit_dot
  match ds, cs.drop ds.length with
  | _ :: _, ':' :: rest =>
    match match_name_at rest with
    | some r => some r
    | none => match_name_at cs
  | _, _ => match_name_at cs

/-- Left-to-right non-overlapping scan collecting every matched label name
(fuel bounded by the input length). -/
def scan_labels : Nat → List Char → List String
  | 0, _ => []
  | _ + 1, [] => []
  | fuel + 1, c :: rest =>
    match match_label_at (c :: rest) with
    | some (nm, remainder) => String.mk nm :: scan_labels fuel remainder
    | none => scan_labels fuel rest

/-- Embeds `taxon_name_re.finditer` (count_parser.py line 185) extracting
every rank-prefixed label name embedded in a clade name. -/
def extract_labels (s : String) : List String :=
  scan_labels s.data.length s.data

/-- The seven rank prefixes that initialise the lineage dictionary
(count_parser.py line 188). -/
def taxa_prefix_list : List String :=
  ["k__", "p__", "c__", "o__", "f__", "g__", "s__"]

/-- Python dict assignment `lineage[key] = taxon_name`: update an existing
key in place, or append a new key (insertion order preserved). -/
def dict_set (l : List (String × String)) (k v : String) : List (String × String) :=
  if (l.lookup k).isSome then l.map (fun p => if p.1 = k then (k, v) else p)
  else l ++ [(k, v)]

/-- One step of the taxa loop of `get_lineage_from_tree` (count_parser.py
lines 193-202): a taxon that is an ancestor-or-self of the found leaf
(`is_parent_of`) has each rank-prefixed label of its name written into the
lineage dictionary under the label's three-character prefix. -/
def apply_taxon (leaf : Addr) (lin : List (String × String)) (tx : Addr × String) :
    List (String × String) :=
  if tx.1.isPrefixOf leaf then
    (extract_labels tx.2).foldl (fun l tn => dict_set l (tn.take 3) tn) lin
  else lin

/-- Embeds `get_lineage_from_tree` (count_parser.py lines 186-203).  When
no tree was supplied the Python code calls `find_any` on None and raises
AttributeError; an observation id naming no clade yields the all-None
list; otherwise the lineage dictionary, initialised with the dummy
prefixes, is filled from the ancestor taxa and its values are returned. -/
def get_lineage_from_tree (obs_id : String) (tree : Option PTree)
    (taxa : List (Addr × String)) : Except String (List (Option String)) :=
  match tree with
  | none => .error "AttributeError: NoneType object has no attribute find_any"
  | some t =>
    match find_any t obs_id with
    | none => .ok (List.replicate 7 none)
    | some leaf =>
      .ok ((taxa.foldl (apply_taxon leaf) (taxa_prefix_list.zip taxa_prefix_list)).map
        (fun p => some p.2))

/-- The per-observation taxonomy metadata of a BIOM table; `none` models a
table without observation metadata, for which the Python subscript on the
`None` returned by `table.metadata` raises the TypeError that routes
resolution to the tree. -/
structure BiomTable where
  obs_metadata : String → Option (List (Option String))

/-- Builds the ORM Lineage record from a rank-ordered value list: models
`dict(zip(['kingdom_', ...], lineage))` followed by `Lineage(**...)`, so a
short list leaves the remaining ranks None (zip truncation). -/
def mk_lineage (l : List (Option String)) : LineageRec :=
  { kingdom_ := l.getD 0 none, phylum_ := l.getD 1 none, class_ := l.getD 2 none,
    order_ := l.getD 3 none, family_ := l.getD 4 none, genus_ := l.getD 5 none,
    species_ := l.getD 6 none }

/-- Embeds `get_lineage` (count_parser.py lines 152-161): use the table's
per-observation taxonomy metadata when present; on the TypeError raised
when the table has none, fall back to the tree. -/
def get_lineage (table : BiomTable) (obs_id : String) (tree : Option PTree)
    (taxa : List (Addr × String)) : Except String LineageRec :=
  match table.obs_metadata obs_id with
  | some tax => .ok (mk_lineage tax)
  | none =>
    match get_lineage_from_tree obs_id tree taxa with
    | .error e => .error e
    | .ok lin => .ok (mk_lineage lin)

/-- Witness tree for C8: a root with two children, the first of which has
one child. -/
def c8_tree : PTree :=
  .node (some "root")
    (.cons (.node (some "k__A") (.cons (.node (some "OTU1") .nil) .nil))
      (.cons (.node (some "OTU2") .nil) .nil))

/-- Witness tree for C9: a root with a single leaf named OTU1. -/
def c9_tree : PTree :=
  .node (some "root") (.cons (.node (some "OTU1") .nil) .nil)

end MbiotaDB

namespace MbiotaDB

/-- C1 (code_bug evaluation): conservation under the sum policy fails on a
table with an `NA` target-rank cell.  The single row of `c1_df` carries
count 5, but `groupby` drops rows whose group key contains `NA`, so the
aggregated output is empty (total 0) in both the simple and the
hierarchical mode, although the docstring of `aggregate_at_taxon_level`
promises that rows missing at the target level are summed under
`missing_method='sum'`. -/
theorem C1_sum_policy_drops_na_rows :
    aggregate_at_taxon_level c1_df "genus" [] "sum" true true = .ok [] ∧
    aggregate_at_taxon_level c1_df "genus" [] "sum" true false = .ok [] ∧
    table_total c1_df = 5 ∧ out_total [] = 0 :=
  ⟨rfl, rfl, rfl, rfl⟩

/-- C2 (counterexample): under hierarchical grouping with policy sum, the
two dummy-genus rows of `c2_df` do not each remain their own output row
retaining their coarser-rank labels; the code collapses them into a single
row per grouping-key value with `NA` in every rank column. -/
theorem C2_dummy_rows_collapse_counterexample :
    aggregate_at_taxon_level c2_df "genus" [] "sum" true false = .ok c2_code_output ∧
    ¬ c2_code_output.Perm c2_claim_predicted :=
  ⟨rfl, by decide⟩

/-- C3 (code_bug evaluation): under policy zero_counts the code does not
densify.  On `c3_df` (2 grouping-key values, 3 distinct lineage prefixes
up to genus) the claim demands 2 x 3 = 6 output rows; the code instead
returns the 3 grouped rows with the dummy-genus group's count overwritten
by 0, matching the source comment that marks this branch as not the
desired functionality. -/
theorem C3_zero_counts_does_not_densify :
    aggregate_at_taxon_level c3_df "genus" [] "zero_counts" true false = .ok c3_out ∧
    c3_out.length = 3 :=
  ⟨rfl, rfl⟩

/-- C4 (confirmed): the reference 12-row fixture aggregated at genus with
simple aggregation and policy sum yields exactly the three groups and
counts demanded by the claim (group (1,1,1,1,1,1,1) with g__:4, g__O:1,
g__P:1; group (2,2,2,2,2,2,2) with g__:4, g__P:2; group (3,3,3,3,3,3,2)
with g__:2, g__P:4), up to row order. -/
theorem C4_simple_sum_scenario :
    aggregate_at_taxon_level data2 "genus" [] "sum" true true = .ok c4_actual ∧
    c4_actual.Perm c4_expected :=
  ⟨rfl, by decide⟩

/-- C5 (counterexample): re-aggregating an already hierarchically summed
table is not a no-op in general.  Aggregating `c5_df` at genus with policy
sum hierarchically yields one collapsed row with `NA` in every rank
column; feeding that output back into the same aggregation drops the row
(its group key contains `NA`), returning an empty table instead of the
same rows. -/
theorem C5_idempotence_counterexample :
    aggregate_at_taxon_level c5_df "genus" [] "sum" true false = .ok c5_out1 ∧
    aggregate_at_taxon_level (c5_out1.map row_of_out) "genus" [] "sum" true false =
      .ok [] ∧
    ¬ ([] : List OutRow).Perm c5_out1 :=
  ⟨rfl, rfl, by decide⟩

/-- C6 (code_bug evaluation): with empty grouping keys the code does not
default to the columns left of the taxonomic block.  On the fixture column
layout (kingdom at position 11) the code computes
`df.columns.names[:11] = [None]` — the level names of the column Index —
whereas the intended default (the code's own comment and the spec) is the
first 11 column labels; the two never agree here. -/
theorem C6_default_grouping_cols_wrong :
    default_grouping_cols fixture_columns = some [none] ∧
    intended_default_grouping_cols fixture_columns = some (fixture_columns.take 11) ∧
    default_grouping_cols fixture_columns ≠
      (intended_default_grouping_cols fixture_columns).map (fun l => l.map some) :=
  ⟨rfl, rfl, by decide⟩

/-- C7 (code_bug evaluation): sequencing-variant classification is a
function of the sample id, not of the observation id.  A cell whose
observation id is the raw sequence "ATGC" but whose sample id is "S1" is
left untagged, while a cell with classical observation id "OTU5" and
sample id "ATGC" is tagged as a sequencing variant (and the tag stores the
sample id).  Lineages are still resolved from the observation id alone. -/
theorem C7_variant_classification_uses_sample_id :
    get_counts_cells [{ obs_id := "ATGC", sample_id := "S1", count := 3 },
                      { obs_id := "OTU5", sample_id := "ATGC", count := 2 }]
        (fun _ => all_none_lineage) =
      [("S1", { count := 3, lineage := all_none_lineage, seq_var := none }),
       ("ATGC", { count := 2, lineage := all_none_lineage, seq_var := some "ATGC" })] :=
  rfl

theorem mem_dedup_first_aux [DecidableEq α] (seen l : List α) (a : α) :
    a ∈ dedup_first_aux seen l ↔ a ∈ l ∧ a ∉ seen := by
  induction l generalizing seen with
  | nil => simp [dedup_first_aux]
  | cons b rest ih =>
    by_cases hb : b ∈ seen
    · simp only [dedup_first_aux, hb, if_true, ih, List.mem_cons]
      constructor
      · exact fun h => ⟨Or.inr h.1, h.2⟩
      · rintro ⟨rfl | h1, h2⟩
        · exact absurd hb h2
        · exact ⟨h1, h2⟩
    · simp only [dedup_first_aux, hb, if_false, List.mem_cons, ih, not_or]
      constructor
      · rintro (rfl | ⟨h1, h2, h3⟩)
        · exact ⟨Or.inl rfl, hb⟩
        · exact ⟨Or.inr h1, h3⟩
      · rintro ⟨rfl | h1, h2⟩
        · exact Or.inl rfl
        · by_cases hab : a = b
          · exact Or.inl hab
          · exact Or.inr ⟨h1, hab, h2⟩

theorem mem_dedup_first [DecidableEq α] (l : List α) (a : α) :
    a ∈ dedup_first l ↔ a ∈ l := by
  simp [dedup_first, mem_dedup_first_aux]

theorem nodup_dedup_first_aux [DecidableEq α] (seen l : List α) :
    (dedup_first_aux seen l).Nodup := by
  induction l generalizing seen with
  | nil => exact List.nodup_nil
  | cons b rest ih =>
    by_cases hb : b ∈ seen
    · simpa only [dedup_first_aux, hb, if_true] using ih seen
    · simp only [dedup_first_aux, hb, if_false]
      refine List.nodup_cons.mpr ⟨?_, ih (b :: seen)⟩
      intro hmem
      exact ((mem_dedup_first_aux _ _ _).mp hmem).2 (List.mem_cons_self b seen)

theorem nodup_dedup_first [DecidableEq α] (l : List α) :
    (dedup_first l).Nodup :=
  nodup_dedup_first_aux [] l

theorem dedup_first_aux_eq_self [DecidableEq α] :
    ∀ (seen l : List α), l.Nodup → (∀ a ∈ l, a ∉ seen) → dedup_first_aux seen l = l
  | _, [], _, _ => rfl
  | seen, b :: rest, h, hd => by
    have hb : b ∉ seen := hd b (List.mem_cons_self _ _)
    simp only [dedup_first_aux, hb, if_false]
    congr 1
    refine dedup_first_aux_eq_self (b :: seen) rest (List.nodup_cons.mp h).2 ?_
    intro a ha hmem
    rcases List.mem_cons.mp hmem with rfl | hmem'
    · exact (List.nodup_cons.mp h).1 ha
    · exact hd a (List.mem_cons_of_mem _ ha) hmem'

theorem dedup_first_eq_self [DecidableEq α] (l : List α) (h : l.Nodup) :
    dedup_first l = l :=
  dedup_first_aux_eq_self [] l h (fun a _ => List.not_mem_nil a)

theorem seq_option_length :
    ∀ (l : List (Option String)) (ts : List String),
      seq_option l = some ts → ts.length = l.length
  | [], ts, h => by
    simp only [seq_option, Option.some.injEq] at h
    simp [← h]
  | none :: rest, ts, h => by simp [seq_option] at h
  | some a :: rest, ts, h => by
    cases hrest : seq_option rest with
    | none => rw [seq_option, hrest] at h; cases h
    | some ts' =>
      rw [seq_option, hrest] at h
      cases h
      simp [seq_option_length rest ts' hrest]

theorem seq_option_mem :
    ∀ (l : List (Option String)) (ts : List String),
      seq_option l = some ts → ∀ t ∈ ts, some t ∈ l
  | [], ts, h => by
    simp only [seq_option, Option.some.injEq] at h
    simp [← h]
  | none :: rest, ts, h => by simp [seq_option] at h
  | some a :: rest, ts, h => by
    cases hrest : seq_option rest with
    | none => rw [seq_option, hrest] at h; cases h
    | some ts' =>
      rw [seq_option, hrest] at h
      cases h
      intro t ht
      rcases List.mem_cons.mp ht with rfl | ht'
      · exact List.mem_cons_self _ _
      · exact List.mem_cons_of_mem _ (seq_option_mem rest ts' hrest t ht')

/-- Preprocessing cannot change the number of rank columns of a row. -/
theorem preprocess_length (df : List Row) (cb : Bool)
    (h7 : ∀ r ∈ df, r.ranks.length = 7) :
    ∀ r ∈ preprocess cb df, r.ranks.length = 7 := by
  intro r hr
  unfold preprocess at hr
  split at hr
  · obtain ⟨r₀, hr₀, rfl⟩ := List.mem_map.mp hr
    simp [strip_row, h7 r₀ hr₀]
  · exact h7 r hr

/-- On a conforming table, the taxonomic part of every hierarchical group
key is nonempty. -/
theorem summed_key_ne_nil (df : List Row) (idx : Nat)
    (h7 : ∀ r ∈ df, r.ranks.length = 7) :
    ∀ kc ∈ summed_rows df false idx, kc.1.2 ≠ [] := by
  intro kc hkc
  unfold summed_rows at hkc
  obtain ⟨k, hk, rfl⟩ := List.mem_map.mp hkc
  rw [mem_dedup_first] at hk
  obtain ⟨r, hr, hrk⟩ := List.mem_filterMap.mp hk
  unfold row_key at hrk
  cases hs : seq_option (grouped_taxa false idx r) with
  | none => rw [hs] at hrk; cases hrk
  | some ts =>
    rw [hs] at hrk
    cases hrk
    show ts ≠ []
    have hlen := seq_option_length _ _ hs
    intro hnil
    rw [hnil, List.length_nil] at hlen
    have h7r := h7 r hr
    simp only [grouped_taxa, Bool.false_eq_true, if_false, List.length_take, h7r] at hlen
    omega

/-- A successful aggregation implies the lower-cased target rank is
recognised. -/
theorem aggregate_ok_rank_recognized {df : List Row} {tl : String}
    {dummies : List (String × String)} {m : String} {cb s : Bool} {l : List OutRow}
    (h : aggregate_at_taxon_level df tl dummies m cb s = .ok l) :
    str_lower tl ∈ recognized_taxon_levels := by
  by_contra hrec
  cases hpd : process_dummy_values dummies default_dummy_dict with
  | error e =>
    simp only [aggregate_at_taxon_level, hpd] at h
    exact Except.noConfusion h
  | ok dict =>
    simp only [aggregate_at_taxon_level, hpd] at h
    rw [if_neg hrec] at h
    exact Except.noConfusion h

/-- A successful hierarchical aggregation under policy sum returns exactly
the dummy-collapsed grouped table. -/
theorem aggregate_sum_complex_spec (df : List Row) (tl : String)
    (dummies : List (String × String)) (cb : Bool) (dummy : String)
    (hrec : str_lower tl ∈ recognized_taxon_levels)
    (hdum : effective_dummy dummies tl = some dummy) :
    aggregate_at_taxon_level df tl dummies "sum" cb false =
      .ok (apply_complex_dummy_collapse
        (summed_rows (preprocess cb df) false (rank_index tl)) (rank_index tl) dummy) := by
  unfold effective_dummy at hdum
  cases hpd : process_dummy_values dummies default_dummy_dict with
  | error e => rw [hpd] at hdum; cases hdum
  | ok dict =>
    simp only [hpd] at hdum
    simp only [aggregate_at_taxon_level, hpd]
    rw [if_pos hrec, hdum]
    simp [rank_index]

/-- Membership in the grouped table rendered as rows. -/
theorem mem_base_rows {summed : List (GroupKey × Nat)} {r : OutRow} :
    r ∈ base_rows summed ↔ ∃ kc, kc ∈ summed ∧
      ({ keys := kc.1.1, taxa := kc.1.2.map some, count := kc.2 } : OutRow) = r :=
  List.mem_map

/-- A fully labelled grouped row is never one of the all-`NA` rows. -/
theorem base_row_taxa_ne_replicate (summed : List (GroupKey × Nat)) (idx : Nat)
    (hne : ∀ kc ∈ summed, kc.1.2 ≠ []) :
    ∀ kc ∈ summed,
      (kc.1.2.map some : List (Option String)) ≠ List.replicate (idx + 1) none := by
  intro kc hkc habs
  rcases hx : kc.1.2 with _ | ⟨x, xs⟩
  · exact hne kc hkc hx
  · rw [hx] at habs
    simp only [List.map_cons, List.replicate_succ, List.cons.injEq] at habs
    exact Option.some_ne_none x habs.1

/-- Every row of the dummy-collapsed table is either fully labelled with a
non-dummy target value, or is one of the appended all-`NA` rows. -/
theorem apply_collapse_rows (summed : List (GroupKey × Nat)) (idx : Nat)
    (dummy : String) (hne : ∀ kc ∈ summed, kc.1.2 ≠ []) :
    ∀ r ∈ apply_complex_dummy_collapse summed idx dummy,
      ((∀ v ∈ r.taxa, v ≠ none) ∧ target_value r ≠ some dummy) ∨
        r.taxa = List.replicate (idx + 1) none := by
  intro r hr
  simp only [apply_complex_dummy_collapse] at hr
  split at hr
  case isTrue hdg =>
    obtain ⟨kc, hkc, rfl⟩ := mem_base_rows.mp hr
    left
    constructor
    · intro v hv
      obtain ⟨t, _, rfl⟩ := List.mem_map.mp hv
      exact Option.some_ne_none t
    · cases hlast : kc.1.2.getLast? with
      | none => exact absurd (List.getLast?_eq_none_iff.mp hlast) (hne kc hkc)
      | some lastv =>
        show ¬((kc.1.2.map some : List (Option String)).getLast?.getD none = some dummy)
        rw [List.getLast?_map, hlast]
        simp only [Option.map_some', Option.getD_some, Option.some.injEq]
        rintro rfl
        rw [List.isEmpty_iff] at hdg
        have hmem : kc ∈ summed.filter (fun kc => kc.1.2.getLast? == some lastv) :=
          List.mem_filter.mpr ⟨hkc, by rw [hlast]; exact beq_self_eq_true _⟩
        rw [hdg] at hmem
        exact List.not_mem_nil kc hmem
  case isFalse hdg =>
    rcases List.mem_append.mp hr with hleft | hright
    · obtain ⟨hbase, hcond⟩ := List.mem_filter.mp hleft
      obtain ⟨kc, hkc, rfl⟩ := mem_base_rows.mp hbase
      left
      constructor
      · intro v hv
        obtain ⟨t, _, rfl⟩ := List.mem_map.mp hv
        exact Option.some_ne_none t
      · intro hdum'
        rw [hdum'] at hcond
        simp at hcond
    · simp only [collapse_dummy_rows] at hright
      obtain ⟨g, _, rfl⟩ := List.mem_map.mp hright
      right
      rfl

/-- The grouping-key values of the all-`NA` rows of the dummy-collapsed
table are pairwise distinct: there is at most one such row per
grouping-key value. -/
theorem apply_collapse_na_keys_nodup (summed : List (GroupKey × Nat)) (idx : Nat)
    (dummy : String) (hne : ∀ kc ∈ summed, kc.1.2 ≠ []) :
    (((apply_complex_dummy_collapse summed idx dummy).filter
        (fun r => r.taxa == List.replicate (idx + 1) none)).map OutRow.keys).Nodup := by
  simp only [apply_complex_dummy_collapse]
  split
  case isTrue hdg =>
    have h0 : (base_rows summed).filter
        (fun r => r.taxa == List.replicate (idx + 1) none) = [] := by
      rw [List.filter_eq_nil_iff]
      intro r hr
      obtain ⟨kc, hkc, rfl⟩ := mem_base_rows.mp hr
      simp only [beq_iff_eq]
      exact base_row_taxa_ne_replicate summed idx hne kc hkc
    rw [h0]
    exact List.nodup_nil
  case isFalse hdg =>
    rw [List.filter_append]
    have h0 : ((base_rows summed).filter (fun r => !(target_value r == some dummy))).filter
        (fun r => r.taxa == List.replicate (idx + 1) none) = [] := by
      rw [List.filter_filter, List.filter_eq_nil_iff]
      intro r hr
      obtain ⟨kc, hkc, rfl⟩ := mem_base_rows.mp hr
      simp only [Bool.and_eq_true, beq_iff_eq, not_and]
      exact fun h1 _ => base_row_taxa_ne_replicate summed idx hne kc hkc h1
    rw [h0, List.nil_append]
    have h1 : (collapse_dummy_rows
          (summed.filter (fun kc => kc.1.2.getLast? == some dummy)) (idx + 1)).filter
        (fun r => r.taxa == List.replicate (idx + 1) none) =
        collapse_dummy_rows
          (summed.filter (fun kc => kc.1.2.getLast? == some dummy)) (idx + 1) := by
      rw [List.filter_eq_self]
      intro r hr
      simp only [collapse_dummy_rows] at hr
      obtain ⟨g, _, rfl⟩ := List.mem_map.mp hr
      exact beq_self_eq_true _
    rw [h1]
    simp only [collapse_dummy_rows, List.map_map]
    simpa [Function.comp_def] using
      nodup_dedup_first ((summed.filter
        (fun kc => kc.1.2.getLast? == some dummy)).map (fun kc => kc.1.1))

/-- The dummy-collapsed table has an all-`NA` row for a grouping-key value
exactly when some grouped sum with that grouping-key value has the dummy
at the target rank. -/
theorem apply_collapse_na_exists (summed : List (GroupKey × Nat)) (idx : Nat)
    (dummy : String) (hne : ∀ kc ∈ summed, kc.1.2 ≠ []) (g : List String) :
    (∃ r ∈ apply_complex_dummy_collapse summed idx dummy,
        r.keys = g ∧ r.taxa = List.replicate (idx + 1) none) ↔
      ∃ kc ∈ summed, kc.1.1 = g ∧ kc.1.2.getLast? = some dummy := by
  simp only [apply_complex_dummy_collapse]
  split
  case isTrue hdg =>
    rw [List.isEmpty_iff] at hdg
    constructor
    · rintro ⟨r, hrb, hkeys, htaxa⟩
      obtain ⟨kc, hkc, rfl⟩ := mem_base_rows.mp hrb
      exact absurd htaxa (base_row_taxa_ne_replicate summed idx hne kc hkc)
    · rintro ⟨kc, hkc, hg, hlast⟩
      have hmem : kc ∈ summed.filter (fun kc => kc.1.2.getLast? == some dummy) :=
        List.mem_filter.mpr ⟨hkc, by rw [hlast]; exact beq_self_eq_true _⟩
      rw [hdg] at hmem
      exact absurd hmem (List.not_mem_nil kc)
  case isFalse hdg =>
    constructor
    · rintro ⟨r, hr, hkeys, htaxa⟩
      rcases List.mem_append.mp hr with hleft | hright
      · obtain ⟨hbase, _⟩ := List.mem_filter.mp hleft
        obtain ⟨kc, hkc, rfl⟩ := mem_base_rows.mp hbase
        exact absurd htaxa (base_row_taxa_ne_replicate summed idx hne kc hkc)
      · simp only [collapse_dummy_rows] at hright
        obtain ⟨g', hg', rfl⟩ := List.mem_map.mp hright
        rw [mem_dedup_first] at hg'
        obtain ⟨kc, hkc, hkg⟩ := List.mem_map.mp hg'
        obtain ⟨hkcs, hkcd⟩ := List.mem_filter.mp hkc
        refine ⟨kc, hkcs, ?_, beq_iff_eq.mp hkcd⟩
        rw [hkg]
        exact hkeys
    · rintro ⟨kc, hkc, hg, hlast⟩
      have hkcd : kc ∈ summed.filter (fun kc => kc.1.2.getLast? == some dummy) :=
        List.mem_filter.mpr ⟨hkc, by rw [hlast]; exact beq_self_eq_true _⟩
      have hgmem : kc.1.1 ∈ dedup_first ((summed.filter
          (fun kc => kc.1.2.getLast? == some dummy)).map (fun kc => kc.1.1)) := by
        rw [mem_dedup_first]
        exact List.mem_map.mpr ⟨kc, hkcd, rfl⟩
      refine ⟨OutRow.mk kc.1.1 (List.replicate (idx + 1) none)
          ((((summed.filter (fun kc => kc.1.2.getLast? == some dummy)).filter
            (fun kc2 => kc2.1.1 == kc.1.1)).map (fun kc => kc.2)).sum),
        List.mem_append.mpr (Or.inr ?_), hg, rfl⟩
      simp only [collapse_dummy_rows]
      exact List.mem_map.mpr ⟨kc.1.1, hgmem, rfl⟩

/-- The count carried by an all-`NA` collapsed row is the sum of the
grouped counts of the dummy-target groups sharing its grouping-key
values. -/
theorem apply_collapse_sum (summed : List (GroupKey × Nat)) (idx : Nat)
    (dummy : String) (hne : ∀ kc ∈ summed, kc.1.2 ≠ []) :
    ∀ r ∈ apply_complex_dummy_collapse summed idx dummy,
      r.taxa = List.replicate (idx + 1) none →
      r.count = ((summed.filter (fun kc =>
          kc.1.1 == r.keys && kc.1.2.getLast? == some dummy)).map (fun kc => kc.2)).sum := by
  intro r hr hrep
  simp only [apply_complex_dummy_collapse] at hr
  split at hr
  case isTrue hdg =>
    obtain ⟨kc, hkc, rfl⟩ := mem_base_rows.mp hr
    exact absurd hrep (base_row_taxa_ne_replicate summed idx hne kc hkc)
  case isFalse hdg =>
    rcases List.mem_append.mp hr with hleft | hright
    · obtain ⟨hbase, _⟩ := List.mem_filter.mp hleft
      obtain ⟨kc, hkc, rfl⟩ := mem_base_rows.mp hbase
      exact absurd hrep (base_row_taxa_ne_replicate summed idx hne kc hkc)
    · simp only [collapse_dummy_rows] at hright
      obtain ⟨g, _, rfl⟩ := List.mem_map.mp hright
      show _ = ((summed.filter (fun kc => kc.1.1 == g && kc.1.2.getLast? == some dummy)).map
        (fun kc => kc.2)).sum
      rw [← List.filter_filter]

/-- C2 (amended, proved): under hierarchical grouping (simple=False) with
policy 'sum', grouped rows whose target-rank value equals the dummy do not
remain one output row per coarser-lineage prefix.  They are collapsed
across coarser lineages into a single row per grouping-key value whose
rank columns are all `NA`, carrying the sum of the collapsed groups'
counts; every other output row is fully labelled and carries a non-dummy
target value.  (Rows whose target rank is `NA` in the input are dropped by
groupby before this step.) -/
theorem C2_hierarchical_dummy_rows_collapse
    (df : List Row) (tl : String) (dummies : List (String × String)) (cb : Bool)
    (l : List OutRow) (dummy : String)
    (h7 : ∀ r ∈ df, r.ranks.length = 7)
    (hagg : aggregate_at_taxon_level df tl dummies "sum" cb false = .ok l)
    (hdum : effective_dummy dummies tl = some dummy) :
    (∀ r ∈ l, ((∀ v ∈ r.taxa, v ≠ none) ∧ target_value r ≠ some dummy) ∨
        r.taxa = List.replicate (rank_index tl + 1) none) ∧
    ((l.filter (fun r => r.taxa == List.replicate (rank_index tl + 1) none)).map
        OutRow.keys).Nodup ∧
    (∀ g : List String,
      (∃ r ∈ l, r.keys = g ∧ r.taxa = List.replicate (rank_index tl + 1) none) ↔
        ∃ kc ∈ summed_rows (preprocess cb df) false (rank_index tl),
          kc.1.1 = g ∧ kc.1.2.getLast? = some dummy) ∧
    (∀ r ∈ l, r.taxa = List.replicate (rank_index tl + 1) none →
      r.count = (((summed_rows (preprocess cb df) false (rank_index tl)).filter
          (fun kc => kc.1.1 == r.keys && kc.1.2.getLast? == some dummy)).map
          (fun kc => kc.2)).sum) := by
  have hrec := aggregate_ok_rank_recognized hagg
  rw [aggregate_sum_complex_spec df tl dummies cb dummy hrec hdum] at hagg
  injection hagg with hl
  subst hl
  have hne := summed_key_ne_nil (preprocess cb df) (rank_index tl)
    (preprocess_length df cb h7)
  exact ⟨apply_collapse_rows _ _ _ hne, apply_collapse_na_keys_nodup _ _ _ hne,
    fun g => apply_collapse_na_exists _ _ _ hne g, apply_collapse_sum _ _ _ hne⟩

/-- Witness for the amended C2 at the concrete two-row table `c2_df`: its
hypotheses hold there, and the collapse behaviour follows by applying the
theorem. -/
theorem C2_hierarchical_dummy_rows_collapse_witness :
    (∀ r ∈ c2_df, r.ranks.length = 7) ∧
    aggregate_at_taxon_level c2_df "genus" [] "sum" true false = .ok c2_code_output ∧
    effective_dummy [] "genus" = some "g__" ∧
    (∀ r ∈ c2_code_output,
      ((∀ v ∈ r.taxa, v ≠ none) ∧ target_value r ≠ some "g__") ∨
        r.taxa = List.replicate (rank_index "genus" + 1) none) :=
  ⟨by decide, rfl, rfl,
    (C2_hierarchical_dummy_rows_collapse c2_df "genus" [] true c2_code_output "g__"
      (by decide) rfl rfl).1⟩

theorem strip_brackets_idem (s : String) :
    strip_brackets (strip_brackets s) = strip_brackets s := by
  simp [strip_brackets, List.filter_filter]

theorem some_beq_some [BEq α] (a b : α) :
    ((some a == some b) : Bool) = (a == b) := rfl

theorem seq_option_map_some : ∀ (l : List String), seq_option (l.map some) = some l
  | [] => rfl
  | a :: rest => by simp [seq_option, seq_option_map_some rest]

theorem filterMap_all_some {α β : Type} (f : α → Option β) (g : α → β) :
    ∀ (l : List α), (∀ a ∈ l, f a = some (g a)) → l.filterMap f = l.map g
  | [], _ => rfl
  | a :: rest, h => by
    rw [List.filterMap_cons, h a (List.mem_cons_self _ _), List.map_cons,
      filterMap_all_some f g rest (fun b hb => h b (List.mem_cons_of_mem _ hb))]

theorem nodup_filter_beq_self [BEq α] [LawfulBEq α] :
    ∀ (L : List α), L.Nodup → ∀ k ∈ L, L.filter (fun x => x == k) = [k]
  | [], _, k, hk => absurd hk (List.not_mem_nil k)
  | a :: rest, h, k, hk => by
    obtain ⟨ha, hrest⟩ := List.nodup_cons.mp h
    rcases List.mem_cons.mp hk with rfl | hk'
    · rw [List.filter_cons, if_pos (beq_self_eq_true _)]
      rw [List.filter_eq_nil_iff.mpr ?_]
      intro x hx habs
      exact ha (beq_iff_eq.mp habs ▸ hx)
    · rw [List.filter_cons, if_neg ?_]
      · exact nodup_filter_beq_self rest hrest k hk'
      · intro habs
        exact ha (beq_iff_eq.mp habs ▸ hk')

theorem assoc_update_cons_eq (pv : String) (rest : List (String × String))
    (k0 v : String) :
    assoc_update ((k0, pv) :: rest) k0 v = (k0, v) :: assoc_update rest k0 v := by
  simp [assoc_update]

theorem assoc_update_cons_ne (pk pv : String) (rest : List (String × String))
    (k0 v : String) (h : pk ≠ k0) :
    assoc_update ((pk, pv) :: rest) k0 v = (pk, pv) :: assoc_update rest k0 v := by
  simp [assoc_update, h]

theorem lookup_cons {α β : Type} [BEq α] (k a : α) (b : β) (rest : List (α × β)) :
    List.lookup k ((a, b) :: rest) =
      (match k == a with
        | true => some b
        | false => List.lookup k rest) := rfl

theorem assoc_update_lookup_isSome :
    ∀ (l : List (String × String)) (k0 v k : String),
      ((assoc_update l k0 v).lookup k).isSome = (l.lookup k).isSome
  | [], _, _, _ => rfl
  | (pk, pv) :: rest, k0, v, k => by
    have ih := assoc_update_lookup_isSome rest k0 v k
    by_cases hp : pk = k0
    · subst hp
      rw [assoc_update_cons_eq]
      cases hk : k == pk
      · simp only [lookup_cons, hk]
        exact ih
      · simp [lookup_cons, hk]
    · rw [assoc_update_cons_ne pk pv rest k0 v hp]
      cases hk : k == pk
      · simp only [lookup_cons, hk]
        exact ih
      · simp [lookup_cons, hk]

theorem process_dummy_lookup_isSome :
    ∀ (d dict dict' : List (String × String)),
      process_dummy_values d dict = .ok dict' →
      ∀ k, (dict'.lookup k).isSome = (dict.lookup k).isSome
  | [], _, _, h, _ => by cases h; rfl
  | (k0, v) :: rest, dict, dict', h, k => by
    simp only [process_dummy_values] at h
    split at h
    · rw [process_dummy_lookup_isSome rest _ _ h k, assoc_update_lookup_isSome]
    · exact Except.noConfusion h

theorem default_dummy_lookup_isSome (tl : String)
    (h : str_lower tl ∈ recognized_taxon_levels) :
    (default_dummy_dict.lookup (str_lower tl)).isSome := by
  generalize str_lower tl = x at h ⊢
  fin_cases h <;> decide

theorem rank_index_lt_seven (tl : String)
    (h : str_lower tl ∈ recognized_taxon_levels) : rank_index tl < 7 := by
  unfold rank_index
  generalize str_lower tl = x at h ⊢
  fin_cases h <;> decide

/-- On a conforming table, the taxonomic part of every hierarchical group
key has exactly idx+1 entries. -/
theorem summed_key_length (df : List Row) (idx : Nat)
    (h7 : ∀ r ∈ df, r.ranks.length = 7) (hidx : idx < 7) :
    ∀ k ∈ dedup_first (df.filterMap (row_key false idx)), k.2.length = idx + 1 := by
  intro k hk
  rw [mem_dedup_first] at hk
  obtain ⟨r, hr, hrk⟩ := List.mem_filterMap.mp hk
  unfold row_key at hrk
  cases hs : seq_option (grouped_taxa false idx r) with
  | none => rw [hs] at hrk; cases hrk
  | some ts =>
    rw [hs] at hrk
    cases hrk
    show ts.length = idx + 1
    rw [seq_option_length _ _ hs]
    simp only [grouped_taxa, Bool.false_eq_true, if_false, List.length_take, h7 r hr]
    omega

/-- After bracket stripping, every value in a hierarchical group key is a
fixed point of bracket stripping. -/
theorem summed_key_values_stripped (df : List Row) (idx : Nat) :
    ∀ k ∈ dedup_first ((preprocess true df).filterMap (row_key false idx)),
      ∀ t ∈ k.2, strip_brackets t = t := by
  intro k hk t ht
  rw [mem_dedup_first] at hk
  obtain ⟨r, hr, hrk⟩ := List.mem_filterMap.mp hk
  unfold row_key at hrk
  cases hs : seq_option (grouped_taxa false idx r) with
  | none => rw [hs] at hrk; cases hrk
  | some ts =>
    rw [hs] at hrk
    cases hrk
    have hmem := seq_option_mem _ _ hs t ht
    simp only [grouped_taxa, Bool.false_eq_true, if_false] at hmem
    have hmem' := List.mem_of_mem_take hmem
    simp only [preprocess, if_true] at hr
    obtain ⟨r₀, _, rfl⟩ := List.mem_map.mp hr
    simp only [strip_row, List.mem_map] at hmem'
    obtain ⟨v, _, hv⟩ := hmem'
    cases v with
    | none => cases hv
    | some u =>
      simp only [Option.map_some', Option.some.injEq] at hv
      rw [← hv]
      exact strip_brackets_idem u

/-- When the dummy-collapsed table contains no `NA` cells at all, the
collapse step was trivial: there were no dummy-target groups and the
result is just the grouped table. -/
theorem apply_collapse_complete (summed : List (GroupKey × Nat)) (idx : Nat)
    (dummy : String) (hkne : ∀ kc ∈ summed, kc.1.2 ≠ [])
    (hc : ∀ r ∈ apply_complex_dummy_collapse summed idx dummy, ∀ v ∈ r.taxa, v ≠ none) :
    summed.filter (fun kc => kc.1.2.getLast? == some dummy) = [] ∧
    apply_complex_dummy_collapse summed idx dummy = base_rows summed := by
  have hdg : summed.filter (fun kc => kc.1.2.getLast? == some dummy) = [] := by
    rcases hne : summed.filter (fun kc => kc.1.2.getLast? == some dummy) with _ | ⟨kc0, gs⟩
    · exact hne
    · exfalso
      have hkc0 : kc0 ∈ summed.filter (fun kc => kc.1.2.getLast? == some dummy) := by
        rw [hne]; exact List.mem_cons_self kc0 gs
      have hkc0' := List.mem_filter.mp hkc0
      obtain ⟨r, hr, _, htaxa⟩ :=
        (apply_collapse_na_exists summed idx dummy hkne kc0.1.1).mpr
          ⟨kc0, hkc0'.1, rfl, beq_iff_eq.mp hkc0'.2⟩
      refine hc r hr none ?_ rfl
      rw [htaxa]
      exact List.mem_replicate.mpr ⟨Nat.succ_ne_zero idx, rfl⟩
  refine ⟨hdg, ?_⟩
  simp only [apply_complex_dummy_collapse, hdg, List.isEmpty_nil, if_true]

/-- On a row list built from pairwise distinct group keys, every group is
the singleton of its own row. -/
theorem group_total_map_rows (idx : Nat) (K : List GroupKey) (hnd : K.Nodup)
    (F : GroupKey → Row) (hF : ∀ k ∈ K, row_key false idx (F k) = some k)
    (k : GroupKey) (hk : k ∈ K) :
    group_total (K.map F) false idx k = (F k).count := by
  unfold group_total
  rw [List.filter_map]
  have hfc : List.filter ((fun r => row_key false idx r == some k) ∘ F) K =
      List.filter (fun k2 => k2 == k) K := by
    refine List.filter_congr ?_
    intro k2 hk2
    simp only [Function.comp_apply]
    rw [hF k2 hk2, some_beq_some]
  rw [hfc, nodup_filter_beq_self K hnd k hk]
  simp

/-- Re-grouping the hierarchically grouped table (fed back as rows) yields
the very same grouped table: its rows have pairwise distinct group keys,
their values are already bracket-free, and each group is a singleton. -/
theorem summed_rows_reagg (df : List Row) (idx : Nat)
    (h7 : ∀ r ∈ df, r.ranks.length = 7) (hidx : idx < 7) :
    summed_rows (preprocess true
        ((base_rows (summed_rows (preprocess true df) false idx)).map row_of_out))
      false idx = summed_rows (preprocess true df) false idx := by
  have h7' := preprocess_length df true h7
  have hkeylen := summed_key_length (preprocess true df) idx h7' hidx
  have hstrip := summed_key_values_stripped df idx
  have hnd := nodup_dedup_first ((preprocess true df).filterMap (row_key false idx))
  set K := dedup_first ((preprocess true df).filterMap (row_key false idx)) with hKdef
  have hdf' : (base_rows (summed_rows (preprocess true df) false idx)).map row_of_out =
      K.map (fun k => Row.mk k.1 (k.2.map some)
        (group_total (preprocess true df) false idx k)) := by
    simp only [base_rows, summed_rows, ← hKdef, List.map_map]
    rfl
  have hrowmk : ∀ k ∈ K,
      row_key false idx (Row.mk k.1 (k.2.map some)
        (group_total (preprocess true df) false idx k)) = some k := by
    intro k hk
    unfold row_key grouped_taxa
    simp only [Bool.false_eq_true, if_false]
    rw [List.take_of_length_le (by rw [List.length_map, hkeylen k hk])]
    rw [seq_option_map_some]
    simp [Prod.mk.eta]
  have hpre : preprocess true ((base_rows (summed_rows (preprocess true df) false idx)).map
      row_of_out) = K.map (fun k => Row.mk k.1 (k.2.map some)
        (group_total (preprocess true df) false idx k)) := by
    rw [hdf']
    simp only [preprocess, if_true, List.map_map]
    refine List.map_congr_left ?_
    intro k hk
    simp only [Function.comp_apply, strip_row, List.map_map]
    congr 1
    refine List.map_congr_left ?_
    intro t ht
    simp only [Function.comp_apply, Option.map_some']
    rw [hstrip k hk t ht]
  rw [hpre]
  unfold summed_rows
  rw [List.filterMap_map]
  simp only [Function.comp_def]
  rw [filterMap_all_some _ id K (fun k hk => hrowmk k hk), List.map_id,
    dedup_first_eq_self K hnd, ← hKdef]
  refine List.map_congr_left ?_
  intro k hk
  rw [group_total_map_rows idx K hnd _ hrowmk k hk]

/-- C5 (amended, proved): re-aggregating an already hierarchically summed
table at the same target rank with policy sum and the same grouping keys
is a no-op, provided the summed table contains no `NA` rank cells — that
is, the first aggregation produced no collapsed missing/dummy rows.  (When
collapsed all-`NA` rows are present, re-aggregation silently drops them;
see the counterexample.) -/
theorem C5_idempotent_when_no_missing
    (df : List Row) (tl : String) (dummies : List (String × String)) (l : List OutRow)
    (h7 : ∀ r ∈ df, r.ranks.length = 7)
    (hagg : aggregate_at_taxon_level df tl dummies "sum" true false = .ok l)
    (hcomplete : ∀ r ∈ l, ∀ v ∈ r.taxa, v ≠ none) :
    aggregate_at_taxon_level (l.map row_of_out) tl dummies "sum" true false = .ok l := by
  have hrec := aggregate_ok_rank_recognized hagg
  cases hpd : process_dummy_values dummies default_dummy_dict with
  | error e =>
    exfalso
    simp only [aggregate_at_taxon_level, hpd] at hagg
    exact Except.noConfusion hagg
  | ok dict =>
    have hsome : (dict.lookup (str_lower tl)).isSome := by
      rw [process_dummy_lookup_isSome dummies default_dummy_dict dict hpd]
      exact default_dummy_lookup_isSome tl hrec
    obtain ⟨dummy, hdum0⟩ := Option.isSome_iff_exists.mp hsome
    have hdum : effective_dummy dummies tl = some dummy := by
      unfold effective_dummy
      rw [hpd]
      exact hdum0
    rw [aggregate_sum_complex_spec df tl dummies true dummy hrec hdum] at hagg
    injection hagg with hl
    subst hl
    have hkne := summed_key_ne_nil (preprocess true df) (rank_index tl)
      (preprocess_length df true h7)
    obtain ⟨hdg, hbase⟩ := apply_collapse_complete
      (summed_rows (preprocess true df) false (rank_index tl)) (rank_index tl) dummy
      hkne hcomplete
    rw [hbase, aggregate_sum_complex_spec _ tl dummies true dummy hrec hdum,
      summed_rows_reagg df (rank_index tl) h7 (rank_index_lt_seven tl hrec), hbase]

/-- Witness for the amended C5 at the concrete dummy-free table `c5w_df`:
its hypotheses hold there, and re-aggregating the hierarchically summed
output returns that output unchanged by applying the theorem. -/
theorem C5_idempotent_when_no_missing_witness :
    (∀ r ∈ c5w_df, r.ranks.length = 7) ∧
    aggregate_at_taxon_level c5w_df "genus" [] "sum" true false = .ok c5w_out ∧
    (∀ r ∈ c5w_out, ∀ v ∈ r.taxa, v ≠ none) ∧
    aggregate_at_taxon_level (c5w_out.map row_of_out) "genus" [] "sum" true false =
      .ok c5w_out :=
  ⟨by decide, rfl, by decide,
    C5_idempotent_when_no_missing c5w_df "genus" [] c5w_out (by decide) rfl (by decide)⟩

/-- Lower-casing the keys of two dummy_values dictionaries to the same
list makes their processing agree: `process_dummy_values` only ever uses a
key through `str_lower`. -/
theorem process_dummy_values_congr :
    ∀ (d₁ d₂ dict : List (String × String)),
      d₁.map (fun p => (str_lower p.1, p.2)) = d₂.map (fun p => (str_lower p.1, p.2)) →
      process_dummy_values d₁ dict = process_dummy_values d₂ dict
  | [], [], _, _ => rfl
  | [], _ :: _, _, h => by simp at h
  | _ :: _, [], _, h => by simp at h
  | (k₁, v₁) :: d₁, (k₂, v₂) :: d₂, dict, h => by
    simp only [List.map_cons, List.cons.injEq, Prod.mk.injEq] at h
    obtain ⟨⟨hk, hv⟩, hrest⟩ := h
    simp only [process_dummy_values, hk, hv]
    exact if_congr Iff.rfl (process_dummy_values_congr d₁ d₂ _ hrest) rfl

/-- C10 (confirmed): rank-name arguments are case-insensitive.  The
aggregation only uses `taxon_level` and the keys of `dummy_values` through
`str_lower` (taxon_merger.py lines 103 and 110), so two calls whose rank
arguments agree after lower-casing — in particular any casing of a
recognised rank name against its lowercase form — return identical
results, including identical validation failures. -/
theorem C10_rank_arguments_case_insensitive
    (df : List Row) (tl₁ tl₂ : String) (d₁ d₂ : List (String × String))
    (m : String) (cb simple : Bool)
    (htl : str_lower tl₁ = str_lower tl₂)
    (hd : d₁.map (fun p => (str_lower p.1, p.2)) = d₂.map (fun p => (str_lower p.1, p.2))) :
    aggregate_at_taxon_level df tl₁ d₁ m cb simple =
      aggregate_at_taxon_level df tl₂ d₂ m cb simple := by
  unfold aggregate_at_taxon_level
  rw [process_dummy_values_congr d₁ d₂ default_dummy_dict hd, htl]

/-- Witness for C10: aggregating the reference fixture at 'GENUS' with a
'Genus'-keyed dummy override behaves exactly as at 'genus' with the
lowercase key. -/
theorem C10_rank_arguments_case_insensitive_witness :
    str_lower "GENUS" = str_lower "genus" ∧
    [("Genus", "g__")].map (fun p => (str_lower p.1, p.2)) =
      [("genus", "g__")].map (fun p => (str_lower p.1, p.2)) ∧
    aggregate_at_taxon_level data2 "GENUS" [("Genus", "g__")] "sum" true true =
      aggregate_at_taxon_level data2 "genus" [("genus", "g__")] "sum" true true :=
  ⟨rfl, rfl,
    C10_rank_arguments_case_insensitive data2 "GENUS" "genus"
      [("Genus", "g__")] [("genus", "g__")] "sum" true true rfl rfl⟩


/-- C9 (counterexample): with no taxonomy metadata and no tree supplied at
all, lineage resolution raises (the Python code calls `find_any` on None,
an AttributeError) instead of yielding an all-None lineage; the extraction
does not complete. -/
theorem C9_no_tree_raises :
    get_lineage { obs_metadata := fun _ => none } "OTU9" none [] =
      .error "AttributeError: NoneType object has no attribute find_any" := rfl

/-- C9 (amended, proved): when a tree is supplied but the observation id
names no clade of it, and the table carries no taxonomy metadata for the
observation, resolution yields the all-None Lineage without raising. -/
theorem C9_unmatched_leaf_all_none
    (table : BiomTable) (obs_id : String) (t : PTree) (taxa : List (Addr × String))
    (hmeta : table.obs_metadata obs_id = none)
    (hfind : find_any t obs_id = none) :
    get_lineage table obs_id (some t) taxa = .ok all_none_lineage := by
  have h1 : get_lineage_from_tree obs_id (some t) taxa = .ok (List.replicate 7 none) := by
    simp only [get_lineage_from_tree, hfind]
  simp only [get_lineage, hmeta, h1]
  rfl

/-- Witness for the amended C9: observation OTU9 names no clade of
`c9_tree`, and its resolution is the all-None Lineage. -/
theorem C9_unmatched_leaf_all_none_witness :
    ({ obs_metadata := fun _ => none } : BiomTable).obs_metadata "OTU9" = none ∧
    find_any c9_tree "OTU9" = none ∧
    get_lineage { obs_metadata := fun _ => none } "OTU9" (some c9_tree) [] =
      .ok all_none_lineage :=
  ⟨rfl, rfl, C9_unmatched_leaf_all_none _ "OTU9" c9_tree [] rfl rfl⟩

theorem enum_children_size_sum :
    ∀ (b : Addr) (i : Nat) (cs : PForest),
      ((enum_children b i cs).map (fun p => sizeOf p.2)).sum < 1 + sizeOf cs
  | _, _, .nil => by simp [enum_children]
  | b, i, .cons c cs => by
    simp only [enum_children, List.map_cons, List.sum_cons, PForest.cons.sizeOf_spec]
    have := enum_children_size_sum b (i + 1) cs
    omega

theorem queue_size_cons_lt (a : Addr) (t : PTree) (rest : List (Addr × PTree)) :
    ((rest ++ enum_children a 0 t.children).map (fun p => sizeOf p.2)).sum <
      (((a, t) :: rest).map (fun p => sizeOf p.2)).sum := by
  have h1 := enum_children_size_sum a 0 t.children
  have ht : 1 + sizeOf t.children ≤ sizeOf t := by
    cases t with
    | node n cs =>
      simp only [PTree.children, PTree.node.sizeOf_spec]
      omega
  simp only [List.map_append, List.sum_append, List.map_cons, List.sum_cons]
  omega

theorem mem_enum_children :
    ∀ (a : Addr) (i : Nat) (cs : PForest) (b : Addr) (c : PTree),
      (b, c) ∈ enum_children a i cs ↔ ∃ j, cs.get? j = some c ∧ b = a ++ [i + j]
  | a, i, .nil, b, c => by simp [enum_children, PForest.get?]
  | a, i, .cons c0 cs, b, c => by
    simp only [enum_children, List.mem_cons, mem_enum_children a (i + 1) cs b c]
    constructor
    · rintro (h | ⟨j, hj, rfl⟩)
      · injection h with h1 h2
        subst h2
        refine ⟨0, rfl, ?_⟩
        rw [h1, Nat.add_zero]
      · refine ⟨j + 1, hj, ?_⟩
        have harith : (i + 1) + j = i + (j + 1) := by omega
        rw [harith]
    · rintro ⟨j, hj, rfl⟩
      cases j with
      | zero =>
        left
        rw [PForest.get?] at hj
        injection hj with h
        rw [h, Nat.add_zero]
      | succ j2 =>
        right
        refine ⟨j2, hj, ?_⟩
        have harith : i + (j2 + 1) = (i + 1) + j2 := by omega
        rw [harith]

theorem mem_level_order_of_subtree :
    ∀ (q : List (Addr × PTree)) (a0 : Addr) (t0 : PTree) (rel : Addr) (s : PTree),
      (a0, t0) ∈ q → subtree_at t0 rel = some s →
      (a0 ++ rel, s) ∈ level_order q
  | [], _, _, _, _, hq, _ => absurd hq (List.not_mem_nil _)
  | (a, t) :: rest, a0, t0, rel, s, hq, hsub => by
    rcases List.mem_cons.mp hq with heq | hmem
    · injection heq with h1 h2
      rw [h1]
      rw [h2] at hsub
      cases rel with
      | nil =>
        simp only [level_order]
        rw [List.append_nil]
        simp only [subtree_at, Option.some.injEq] at hsub
        rw [← hsub]
        exact List.mem_cons_self _ _
      | cons i rel2 =>
        simp only [subtree_at] at hsub
        cases hc : t.children.get? i with
        | none => rw [hc] at hsub; cases hsub
        | some c =>
          rw [hc] at hsub
          have hcmem : (a ++ [i], c) ∈ enum_children a 0 t.children := by
            rw [mem_enum_children]
            exact ⟨i, hc, by rw [Nat.zero_add]⟩
          have hrec := mem_level_order_of_subtree
            (rest ++ enum_children a 0 t.children) (a ++ [i]) c rel2 s
            (List.mem_append.mpr (Or.inr hcmem)) hsub
          simp only [level_order]
          refine List.mem_cons_of_mem _ ?_
          rw [List.append_cons]
          exact hrec
    · have hrec := mem_level_order_of_subtree (rest ++ enum_children a 0 t.children)
        a0 t0 rel s (List.mem_append.mpr (Or.inl hmem)) hsub
      simp only [level_order]
      exact List.mem_cons_of_mem _ hrec
termination_by q => (q.map (fun p => sizeOf p.2)).sum
decreasing_by
  all_goals exact queue_size_cons_lt _ _ _

/-- Every entry of the parent dictionary maps a child address (never the
root) to its immediate-parent address. -/
theorem all_parents_shape (t : PTree) :
    ∀ p ∈ all_parents t, p.1 ≠ [] ∧ p.2 = p.1.dropLast := by
  intro p hp
  unfold all_parents at hp
  obtain ⟨q, hq, hp2⟩ := List.mem_flatMap.mp hp
  obtain ⟨c, hc, rfl⟩ := List.mem_map.mp hp2
  rcases c with ⟨ca, ct⟩
  obtain ⟨j, _, rfl⟩ := (mem_enum_children q.1 0 q.2.children ca ct).mp hc
  constructor
  · simp
  · simp [List.dropLast_concat]

theorem lookup_eq_none_of_all {α β : Type} [BEq α] [LawfulBEq α] :
    ∀ (l : List (α × β)) (a : α), (∀ p ∈ l, p.1 ≠ a) → List.lookup a l = none
  | [], _, _ => rfl
  | (k, v) :: rest, a, h => by
    have hk : (a == k) = false :=
      beq_eq_false_iff_ne.mpr (fun e => h (k, v) (List.mem_cons_self _ _) e.symm)
    simp only [lookup_cons, hk]
    exact lookup_eq_none_of_all rest a (fun p hp => h p (List.mem_cons_of_mem _ hp))

theorem lookup_mem_of_all {α β : Type} [BEq α] [LawfulBEq α] (f : α → β) :
    ∀ (l : List (α × β)) (a : α),
      (∀ p ∈ l, p.2 = f p.1) → a ∈ l.map Prod.fst → List.lookup a l = some (f a)
  | [], a, _, ha => absurd ha (List.not_mem_nil a)
  | (k, v) :: rest, a, h, ha => by
    cases hk : a == k with
    | true =>
      have hak : a = k := eq_of_beq hk
      subst hak
      simp only [lookup_cons, hk]
      have hv2 : v = f a := h (a, v) (List.mem_cons_self _ _)
      rw [hv2]
    | false =>
      simp only [lookup_cons, hk]
      refine lookup_mem_of_all f rest a (fun p hp => h p (List.mem_cons_of_mem _ hp)) ?_
      rcases List.mem_map.mp ha with ⟨p, hp, hpa⟩
      rcases List.mem_cons.mp hp with rfl | hp2
      · exact absurd hpa.symm (beq_eq_false_iff_ne.mp hk)
      · exact List.mem_map.mpr ⟨p, hp2, hpa⟩

theorem lookup_all_parents_root (t : PTree) :
    List.lookup ([] : Addr) (all_parents t) = none :=
  lookup_eq_none_of_all _ _ (fun p hp => (all_parents_shape t p hp).1)

theorem lookup_all_parents (t : PTree) (a : Addr)
    (ha : a ∈ (all_parents t).map Prod.fst) :
    List.lookup a (all_parents t) = some a.dropLast :=
  lookup_mem_of_all List.dropLast _ a (fun p hp => (all_parents_shape t p hp).2) ha

theorem subtree_at_append :
    ∀ (b rel : Addr) (t : PTree),
      subtree_at t (b ++ rel) = (subtree_at t b).bind (fun u => subtree_at u rel)
  | [], _, _ => rfl
  | i :: b2, rel, t => by
    simp only [List.cons_append, subtree_at]
    cases t.children.get? i with
    | none => rfl
    | some c => exact subtree_at_append b2 rel c

/-- Every valid non-root address occurs as a key of the parent
dictionary. -/
theorem valid_mem_all_parents (t : PTree) (b : Addr) (i : Nat)
    (h : valid_addr t (b ++ [i]) = true) :
    (b ++ [i]) ∈ (all_parents t).map Prod.fst := by
  unfold valid_addr at h
  rw [subtree_at_append b [i] t] at h
  cases hsb : subtree_at t b with
  | none => rw [hsb] at h; simp at h
  | some u =>
    rw [hsb] at h
    simp only [Option.some_bind] at h
    cases hsu : subtree_at u [i] with
    | none => rw [hsu] at h; simp at h
    | some s =>
      have hget : u.children.get? i = some s := by
        simp only [subtree_at] at hsu
        cases hg : u.children.get? i with
        | none => rw [hg] at hsu; cases hsu
        | some c =>
          rw [hg] at hsu
          simp only [subtree_at, Option.some.injEq] at hsu
          rw [hsu]
      have hu : (b, u) ∈ level_order [([], t)] := by
        have hm := mem_level_order_of_subtree [([], t)] [] t b u
          (List.mem_cons_self _ _) hsb
        simpa using hm
      refine List.mem_map.mpr ⟨(b ++ [i], b), ?_, rfl⟩
      unfold all_parents
      refine List.mem_flatMap.mpr ⟨(b, u), hu, ?_⟩
      refine List.mem_map.mpr ⟨(b ++ [i], s), ?_, rfl⟩
      rw [mem_enum_children]
      exact ⟨i, hget, by rw [Nat.zero_add]⟩

/-- The fuelled parent walk from a valid address produces exactly the
descending chain of prefixes of the address. -/
theorem walk_parents_step (parents : List (Addr × Addr)) (fuel : Nat) (a p : Addr)
    (h : List.lookup a parents = some p) :
    walk_parents parents (fuel + 1) a = a :: walk_parents parents fuel p := by
  simp only [walk_parents, h]

theorem walk_parents_spec (t : PTree) :
    ∀ (n : Nat) (a : Addr), a.length = n → valid_addr t a = true →
      walk_parents (all_parents t) (n + 1) a = ancestor_addrs_fuel n a := by
  intro n
  induction n with
  | zero =>
    intro a ha _
    have hnil : a = [] := List.eq_nil_of_length_eq_zero ha
    subst hnil
    simp [walk_parents, lookup_all_parents_root, ancestor_addrs_fuel]
  | succ m ih =>
    intro a ha hv
    rcases List.eq_nil_or_concat a with rfl | ⟨b, i, rfl⟩
    · simp at ha
    · rw [List.concat_eq_append] at ha hv ⊢
      have hmem : (b ++ [i]) ∈ (all_parents t).map Prod.fst :=
        valid_mem_all_parents t b i hv
      have hlook := lookup_all_parents t _ hmem
      rw [walk_parents_step (all_parents t) (m + 1) (b ++ [i]) _ hlook,
        List.dropLast_concat]
      have hb_len : b.length = m := by
        simp only [List.length_append, List.length_cons, List.length_nil] at ha
        omega
      have hb_valid : valid_addr t b = true := by
        unfold valid_addr at hv ⊢
        rw [subtree_at_append b [i] t] at hv
        cases hsb : subtree_at t b with
        | none => rw [hsb] at hv; simp at hv
        | some u => simp
      rw [ih b hb_len hb_valid]
      simp [ancestor_addrs_fuel, List.dropLast_concat]

theorem ancestor_addrs_fuel_length :
    ∀ (n : Nat) (a : Addr), (ancestor_addrs_fuel n a).length = n + 1
  | 0, _ => rfl
  | n + 1, a => by
    simp [ancestor_addrs_fuel, ancestor_addrs_fuel_length n]

theorem getLast?_cons_eq {α : Type} (x y : α) (l : List α) (h : l.getLast? = some y) :
    (x :: l).getLast? = some y := by
  cases l with
  | nil => cases h
  | cons b t =>
    rw [List.getLast?_cons_cons]
    exact h

theorem ancestor_addrs_fuel_last :
    ∀ (n : Nat) (a : Addr), a.length = n → (ancestor_addrs_fuel n a).getLast? = some []
  | 0, a, h => by
    rw [List.eq_nil_of_length_eq_zero h]
    rfl
  | n + 1, a, h => by
    have hlen : a.dropLast.length = n := by
      rw [List.length_dropLast, h]
      omega
    have hrec := ancestor_addrs_fuel_last n a.dropLast hlen
    simp only [ancestor_addrs_fuel]
    exact getLast?_cons_eq a [] (ancestor_addrs_fuel n a.dropLast) hrec

/-- C8 (confirmed): after the one-pass level-order build, the parent map
has an entry for every valid non-root node (mapping it to its parent) and
no entry for the root; the ancestors walk from any valid node of depth d
yields exactly the d+1 prefixes of its address — the path from the node to
the root inclusive — ending at the parentless root. -/
theorem C8_parent_index_totality (t : PTree) :
    (∀ a : Addr, valid_addr t a = true → a ≠ [] →
      List.lookup a (all_parents t) = some a.dropLast) ∧
    List.lookup ([] : Addr) (all_parents t) = none ∧
    (∀ a : Addr, valid_addr t a = true →
      get_path t a = ancestor_addrs a ∧
      (get_path t a).length = a.length + 1 ∧
      (get_path t a).getLast? = some []) := by
  refine ⟨?_, lookup_all_parents_root t, ?_⟩
  · intro a hv hne
    rcases List.eq_nil_or_concat a with rfl | ⟨b, i, rfl⟩
    · exact absurd rfl hne
    · rw [List.concat_eq_append] at hv ⊢
      exact lookup_all_parents t _ (valid_mem_all_parents t b i hv)
  · intro a hv
    have hw : get_path t a = ancestor_addrs a :=
      walk_parents_spec t a.length a rfl hv
    refine ⟨hw, ?_, ?_⟩
    · rw [hw]
      exact ancestor_addrs_fuel_length a.length a
    · rw [hw]
      exact ancestor_addrs_fuel_last a.length a rfl

/-- Witness for C8 at a concrete three-level tree: the grandchild [0, 0]
is valid and non-root, its parent entry is [0], and its ancestor path has
3 = depth + 1 nodes. -/
theorem C8_parent_index_totality_witness :
    valid_addr c8_tree [0, 0] = true ∧ ([0, 0] : Addr) ≠ [] ∧
    List.lookup ([0, 0] : Addr) (all_parents c8_tree) = some [0] ∧
    (get_path c8_tree [0, 0]).length = 3 := by
  refine ⟨by decide, by decide, ?_, ?_⟩
  · exact (C8_parent_index_totality c8_tree).1 [0, 0] (by decide) (by decide)
  · exact ((C8_parent_index_totality c8_tree).2.2 [0, 0] (by decide)).2.1

end MbiotaDB
